import Mathlib

/-!
Verification development for the hive-multisig-sdk multisig coordination
logic.  The TypeScript sources (src/index.ts and src/utils/hive.utils.ts,
including their successive revisions) are shallowly embedded as pure Lean
functions.  External collaborators (the keychain signing/encryption
provider, the ledger read client, JSON parsing of decrypted payloads) are
modelled as oracles carried in an `Env` record; promises that may reject
are modelled with `Except`, and a promise that never settles is modelled
as `Option.none` at the outer layer.  JavaScript `undefined` for a value
of type `T | undefined` is modelled as `Option.none`; JavaScript string
truthiness (`"" ` and `undefined` are falsy) is modelled by `jsTruthyStr`.
-/

namespace HiveMultisig

/-- Key classes of `KeychainKeyTypes` that the SDK dispatches on
(`active`, `posting`, and `memo`; `owner` never appears in the code). -/
inductive KeyType
  | active
  | posting
  | memo
deriving DecidableEq

/-- A dhive `AuthorityType`: weighted account principals, weighted key
principals, and a threshold.  Public keys are modelled as their string
form (`key.toString()` is applied pervasively in the source). -/
structure AuthorityType where
  weight_threshold : Nat
  account_auths : List (String × Nat)
  key_auths : List (String × Nat)
deriving DecidableEq

/-- The slice of a ledger `ExtendedAccount` that the SDK reads. -/
structure Account where
  active : AuthorityType
  posting : AuthorityType
deriving DecidableEq

/-- The ledger read client (`client.database.getAccounts([username])[0]`):
`none` models an account the ledger does not know. -/
abbrev Ledger := String → Option Account

/-- JavaScript truthiness of a `string | undefined` value:
`undefined` and the empty string are falsy. -/
def jsTruthyStr : Option String → Bool
  | none => false
  | some s => s != ""

/-- JavaScript `a || b` on `string | undefined` values. -/
def jsOrStr (a b : Option String) : Option String :=
  if jsTruthyStr a then a else b

/-- Character-list prefix test used to model `String.prototype.startsWith`. -/
def listStarts : List Char → List Char → Bool
  | [], _ => true
  | _ :: _, [] => false
  | a :: as, b :: bs => a == b && listStarts as bs

/-- Models `authority.toString().startsWith('STM')` from the source. -/
def strStartsWith (s pre : String) : Bool :=
  listStarts pre.data s.data

/-- Removes the first occurrence of a character (models the JavaScript
`string.replace('#', '')`, which replaces only the first occurrence). -/
def removeFirstChar (c : Char) : List Char → List Char
  | [] => []
  | x :: xs => if x == c then xs else x :: removeFirstChar c xs

/-- Models `jsonString.replace('#', '')` from `decodeTransaction`. -/
def stripFirstHash (s : String) : String :=
  ⟨removeFirstChar '#' s.data⟩

/-- A JSON field value as read by `getUsernameFromTransaction`: either a
plain string field or a string-array field such as `required_auths`. -/
inductive FieldVal
  | str (s : String)
  | strList (l : List String)
deriving DecidableEq

/-- The operand object of a Hive operation, as a field map. -/
abbrev Payload := List (String × FieldVal)

/-- Reading a string-typed operand field; `none` models `undefined`
(field absent). -/
def getStrField (p : Payload) (f : String) : Option String :=
  match p.lookup f with
  | some (.str s) => some s
  | _ => none

/-- Reading a string-array operand field; `none` models `undefined`. -/
def getListField (p : Payload) (f : String) : Option (List String) :=
  match p.lookup f with
  | some (.strList l) => some l
  | _ => none

/-- Models `payload.field?.[0]`: `undefined` when the array field is
absent or empty. -/
def firstAuth (p : Payload) (f : String) : Option String :=
  (getListField p f).bind List.head?

/-- A Hive operation `[kind, operand]`.  `payload = none` models a
missing or non-object operand (`!op[1] || typeof op[1] !== 'object'`). -/
structure Op where
  kind : String
  payload : Option Payload
deriving DecidableEq

/-- The per-operation-kind acting-account mapping: the `switch (op[0])`
body of `HiveMultisigSDK.getUsernameFromTransaction`.  An unrecognized
kind (no `case` matches) leaves `newUsername` as `undefined` (`none`). -/
def actingAccountOf (kind : String) (p : Payload) : Option String :=
  match kind with
  | "account_create" => getStrField p "creator"
  | "account_create_with_delegation" => getStrField p "creator"
  | "account_update" => getStrField p "account"
  | "account_update2" => getStrField p "account"
  | "account_witness_proxy" => getStrField p "account"
  | "account_witness_vote" => getStrField p "account"
  | "cancel_transfer_from_savings" => getStrField p "from"
  | "change_recovery_account" => getStrField p "account_to_recover"
  | "claim_account" => getStrField p "creator"
  | "claim_reward_balance" => getStrField p "account"
  | "collateralized_convert" => getStrField p "owner"
  | "comment" => getStrField p "author"
  | "comment_options" => getStrField p "author"
  | "convert" => getStrField p "owner"
  | "create_claimed_account" => getStrField p "creator"
  | "create_proposal" => getStrField p "creator"
  | "custom" => firstAuth p "required_auths"
  | "custom_binary" =>
      jsOrStr (firstAuth p "required_auths")
        (jsOrStr (firstAuth p "required_posting_auths")
          (jsOrStr (firstAuth p "required_active_auths")
            (firstAuth p "required_owner_auths")))
  | "custom_json" =>
      jsOrStr (firstAuth p "required_auths")
        (firstAuth p "required_posting_auths")
  | "decline_voting_rights" => getStrField p "account"
  | "delegate_vesting_shares" => getStrField p "delegator"
  | "delete_comment" => getStrField p "author"
  | "escrow_approve" => getStrField p "who"
  | "escrow_dispute" => getStrField p "who"
  | "escrow_release" => getStrField p "who"
  | "escrow_transfer" => getStrField p "from"
  | "feed_publish" => getStrField p "publisher"
  | "limit_order_cancel" => getStrField p "owner"
  | "limit_order_create" => getStrField p "owner"
  | "limit_order_create2" => getStrField p "owner"
  | "pow" => getStrField p "worker_account"
  | "recover_account" => getStrField p "account_to_recover"
  | "report_over_production" => getStrField p "reporter"
  | "request_account_recovery" => getStrField p "account_to_recover"
  | "reset_account" => getStrField p "account_to_reset"
  | "set_reset_account" => getStrField p "account"
  | "set_withdraw_vesting_route" => getStrField p "from_account"
  | "transfer" => getStrField p "from"
  | "transfer_from_savings" => getStrField p "from"
  | "transfer_to_savings" => getStrField p "from"
  | "transfer_to_vesting" => getStrField p "from"
  | "vote" => getStrField p "voter"
  | "withdraw_vesting" => getStrField p "account"
  | "witness_set_properties" => getStrField p "owner"
  | "witness_update" => getStrField p "owner"
  | "update_proposal" => getStrField p "creator"
  | "remove_proposal" => getStrField p "proposal_owner"
  | "update_proposal_votes" => getStrField p "voter"
  | "recurrent_transfer" => getStrField p "from"
  | _ => none

/-- A transaction: `operations = none` models a missing operation list
(`!tx.operations`). -/
structure Tx where
  operations : Option (List Op)
deriving DecidableEq

/-- The `for (const op of tx.operations)` loop of
`getUsernameFromTransaction`, carrying the running `username`
accumulator.  A bare `return;` in the source is `none`. -/
def extractUsernameLoop : List Op → Option String → Option String
  | [], username => username
  | op :: rest, username =>
    if op.kind == "" then none
    else
      match op.payload with
      | none => none
      | some p =>
        let newUsername := actingAccountOf op.kind p
        if jsTruthyStr username && username != newUsername then none
        else extractUsernameLoop rest newUsername

/-- `HiveMultisigSDK.getUsernameFromTransaction` (the broadcaster
extractor). -/
def getUsernameFromTransaction (tx : Tx) : Option String :=
  match tx.operations with
  | none => none
  | some [] => none
  | some ops => extractUsernameLoop ops none

/-- Acting account of a single operation (the combination of the
malformed-operand guard and the kind switch), used to state properties. -/
def opActing (op : Op) : Option String :=
  match op.payload with
  | none => none
  | some p => actingAccountOf op.kind p

/-- A structurally well-formed operation of recognized kind whose acting
account is a non-empty string. -/
def opWF (op : Op) : Bool :=
  op.kind != "" && op.payload.isSome && jsTruthyStr (opActing op)

/-! ## hive.utils.ts (current revision) -/

/-- `getAccount` / `getAccountAuthorities`: ledger lookup, `none` when the
ledger has no such account. -/
def getAccount (ledger : Ledger) (username : String) : Option Account :=
  ledger username

/-- `getPublicKeys`: an account's own public keys for a key class
(`key_auths.map(key => key[0])`); `undefined` when the account does not
exist or the key type hits the `default` branch. -/
def getPublicKeys (ledger : Ledger) (username : String) (kt : KeyType) :
    Option (List String) :=
  match getAccount ledger username with
  | none => none
  | some a =>
    match kt with
    | .active => some (a.active.key_auths.map (·.1))
    | .posting => some (a.posting.key_auths.map (·.1))
    | .memo => none

/-- `getThreshold`: the declared weight threshold of the account's
authority for the key class. -/
def getThreshold (ledger : Ledger) (username : String) (kt : KeyType) :
    Option Nat :=
  match getAccount ledger username with
  | none => none
  | some a =>
    match kt with
    | .active => some a.active.weight_threshold
    | .posting => some a.posting.weight_threshold
    | .memo => none

/-- The `for (const [u, w] of entries) if (authority === u) return w`
loops of `getAuthorityWeightOverUser`. -/
def findAuthWeight (entries : List (String × Nat)) (authority : String) :
    Option Nat :=
  match entries with
  | [] => none
  | (u, w) :: rest =>
    if authority == u then some w else findAuthWeight rest authority

/-- One keyClass branch body of `getAuthorityWeightOverUser`: key
principals (names starting with `STM`) are looked up in `key_auths`,
account principals in `account_auths`. -/
def authorityWeightIn (auth : AuthorityType) (authority : String) :
    Option Nat :=
  if strStartsWith authority "STM" then findAuthWeight auth.key_auths authority
  else findAuthWeight auth.account_auths authority

/-- `getAuthorityWeightOverUser`.  NOTE: the source `switch (keyType)` has
no `break` after the `active` case, so when the principal is absent from
the active authority, control falls through into the `posting` case; the
embedding reproduces that fallthrough. -/
def getAuthorityWeightOverUser (ledger : Ledger) (authority : String)
    (username : String) (kt : KeyType) : Option Nat :=
  match getAccount ledger username with
  | none => none
  | some a =>
    match kt with
    | .active =>
      match authorityWeightIn a.active authority with
      | some w => some w
      | none => authorityWeightIn a.posting authority
    | .posting => authorityWeightIn a.posting authority
    | .memo => none

/-- The `account_auths` expansion loop of `getPotentialSigners`: each
delegated account contributes its own public keys at the parent entry's
weight; a delegated account whose keys cannot be resolved is skipped. -/
def expandAccountAuths (ledger : Ledger) (kt : KeyType) :
    List (String × Nat) → List (String × Nat)
  | [] => []
  | (acc, w) :: rest =>
    (match getPublicKeys ledger acc kt with
     | none => []
     | some pks => pks.map (fun pk => (pk, w))) ++
      expandAccountAuths ledger kt rest

/-- `getPotentialSigners`: expanded account principals followed by the
direct key principals (`method === active ? active : posting` picks the
authority). -/
def getPotentialSigners (ledger : Ledger) (username : String)
    (method : KeyType) : List (String × Nat) :=
  match getAccount ledger username with
  | none => []
  | some a =>
    let authority := if method == KeyType.active then a.active else a.posting
    expandAccountAuths ledger method authority.account_auths ++
      authority.key_auths

/-! ## hive.utils.ts (earlier revision): getPublicKey / getEncodedTxReceivers -/

/-- The earlier revision's `getPublicKey`: the first key of
`key_auths`; accessing a missing account or an empty `key_auths` throws
(`.error ()`), which the caller's `try` converts to a thrown `Error`;
a key type with no `case` returns `undefined` without throwing. -/
def getPublicKeyFirst (ledger : Ledger) (username : String) (kt : KeyType) :
    Except Unit (Option String) :=
  match kt with
  | .memo => .ok none
  | .active =>
    match getAccount ledger username with
    | none => .error ()
    | some a =>
      match a.active.key_auths with
      | [] => .error ()
      | (k, _) :: _ => .ok (some k)
  | .posting =>
    match getAccount ledger username with
    | none => .error ()
    | some a =>
      match a.posting.key_auths with
      | [] => .error ()
      | (k, _) :: _ => .ok (some k)

/-- The `account_auths` loop of the earlier revision's
`getEncodedTxReceivers` (one key per delegated account). -/
def encReceiversAccounts (ledger : Ledger) (kt : KeyType) :
    List (String × Nat) → Except Unit (List (String × Nat))
  | [] => .ok []
  | (acc, w) :: rest =>
    match getPublicKeyFirst ledger acc kt with
    | .error e => .error e
    | .ok none => encReceiversAccounts ledger kt rest
    | .ok (some pk) =>
      match encReceiversAccounts ledger kt rest with
      | .error e => .error e
      | .ok l => .ok ((pk, w) :: l)

/-- The earlier revision's `getEncodedTxReceivers`: expanded account
principals (first key each) followed by the direct key principals. -/
def getEncodedTxReceivers (ledger : Ledger) (authority : AuthorityType)
    (kt : KeyType) : Except Unit (List (String × Nat)) :=
  match encReceiversAccounts ledger kt authority.account_auths with
  | .error e => .error e
  | .ok l => .ok (l ++ authority.key_auths)

/-! ## Authority validator -/

/-- `HiveMultisigSDK.validateInitiatorOverBroadcaster`: result type
`Option Bool` where `none` models the `return undefined` paths.  The
source's `if (!userAuthorities) return undefined` guard is dead code
(`getPotentialSigners` always returns an array) and has no counterpart
here. -/
def validateInitiatorOverBroadcaster (ledger : Ledger) (initiator : String)
    (kt : KeyType) (tx : Tx) : Option Bool :=
  let txUsername := getUsernameFromTransaction tx
  if jsTruthyStr txUsername then
    match getPublicKeys ledger initiator kt with
    | none => none
    | some initiatorPublicKeys =>
      let userAuthorities := getPotentialSigners ledger (txUsername.getD "") kt
      some (initiatorPublicKeys.any fun key =>
        userAuthorities.any fun p => key == p.1 && decide (0 < p.2))
  else none

/-! ## Message shapes and inputs (socket-message interfaces) -/

/-- A signed transaction as returned by the signing provider
(`signature.result`); only its `signatures` array is read by the SDK. -/
structure SignedTx where
  signatures : List String
deriving DecidableEq

/-- `RequestSignatureSigner`.  `encryptedTransaction` is
`Option String` because the demultiplexing `encodedTx[publicKey]` can
produce `undefined` when the provider omits a key; `weight` is stored as
a string (`weight.toString()` in the source). -/
structure RequestSignatureSigner where
  encryptedTransaction : Option String
  publicKey : String
  weight : String
deriving DecidableEq

/-- `ISignatureRequest` (dates modelled as numbers; `threshold` is
`Option Nat` because `getThreshold(...) as number` can be `undefined`). -/
structure ISignatureRequest where
  expirationDate : Nat
  threshold : Option Nat
  keyType : KeyType
  signers : List RequestSignatureSigner
deriving DecidableEq

/-- `SignatureRequestInitialSigner`; `signature` is
`signedTransaction.signatures[0]`, which can be `undefined`. -/
structure SignatureRequestInitialSigner where
  username : String
  publicKey : String
  signature : Option String
  weight : Nat
deriving DecidableEq

/-- `RequestSignatureMessage`. -/
structure RequestSignatureMessage where
  signatureRequest : ISignatureRequest
  initialSigner : SignatureRequestInitialSigner
deriving DecidableEq

/-- `SignTransactionMessage`; `signature` is
`signatures[signatures.length - 1]`, which can be `undefined`. -/
structure SignTransactionMessage where
  signature : Option String
  signerId : Nat
  signatureRequestId : Nat
deriving DecidableEq

/-- The initiator identity of `IEncodeTransaction`. -/
structure Initiator where
  username : String
  publicKey : String
  weight : Nat
deriving DecidableEq

/-- `IEncodeTransaction` (current revision: no explicit authority). -/
structure IEncodeTransaction where
  transaction : Tx
  method : KeyType
  expirationDate : Nat
  initiator : Initiator
deriving DecidableEq

/-- `IEncodeTransaction` of the earlier revision, which carries an
explicit `authority`. -/
structure IEncodeTransactionLegacy where
  transaction : Tx
  method : KeyType
  expirationDate : Nat
  initiator : Initiator
  authority : AuthorityType
deriving DecidableEq

/-- `ISignTransaction`. -/
structure ISignTransactionData where
  decodedTransaction : Tx
  signerId : Nat
  signatureRequestId : Nat
  username : String
  method : KeyType
deriving DecidableEq

/-- A stored `Signer` entity of a backend `SignatureRequest`. -/
structure SignerRec where
  id : Nat
  publicKey : String
  encryptedTransaction : String
  weight : Nat
deriving DecidableEq

/-- A backend `SignatureRequest`. -/
structure SignatureRequestRec where
  id : Nat
  expirationDate : Nat
  threshold : Nat
  keyType : KeyType
  initiator : String
  signers : List SignerRec
deriving DecidableEq

/-- `ITransaction` (current revision: carries the whole signer entry). -/
structure ITransactionRec where
  signer : SignerRec
  signatureRequestId : Nat
  transaction : Tx
  method : KeyType
  username : String
deriving DecidableEq

/-- The `ITransaction` shape of the earlier `decodeTransaction` revision
(carries only the signer id). -/
structure ITransactionLegacyRec where
  signerId : Nat
  signatureRequestId : Nat
  transaction : Tx
  method : KeyType
  username : String
deriving DecidableEq

/-- External collaborators as oracles: the keychain signing / encoding /
decoding provider, JSON serialization and parsing of transaction
payloads, and the ledger.  `none` models a provider call that reports
failure (`success === false`). -/
structure Env where
  ledger : Ledger
  signTx : String → Tx → KeyType → Option SignedTx
  encodeWithKeys : String → List String → String → KeyType →
    Option (List (String × String))
  decode : String → String → KeyType → Option String
  parseTx : String → Option Tx
  stringifyTx : Tx → String
  stringifySignedTx : SignedTx → String

/-- `encodedTx[publicKey]` demultiplexing of the batched encryption
result. -/
def lookupCipher (m : List (String × String)) (k : String) : Option String :=
  m.lookup k

/-- Failure reasons of the encoders' `reject` calls.  `thrown` stands for
an exception caught by the surrounding `try` (rejected as
`Error occurred during encodeTransaction`). -/
inductive EncodeError
  | signingFailed
  | broadcasterUnresolved
  | encodingFailed
  | thrown
deriving DecidableEq

/-- `utils.encodeTransaction` of the current revision.  The outer
`Option` models promise settlement: `none` means the promise never
resolves nor rejects (the source reaches the end of the executor without
calling either when the broadcaster is resolved but the filtered
potential-signer list is empty). -/
def utilsEncodeTransaction (env : Env) (data : IEncodeTransaction) :
    Option (Except EncodeError RequestSignatureMessage) :=
  match env.signTx data.initiator.username data.transaction data.method with
  | none => some (.error .signingFailed)
  | some signedTransaction =>
    let broadcaster := getUsernameFromTransaction data.transaction
    if jsTruthyStr broadcaster then
      let b := broadcaster.getD ""
      let threshold := getThreshold env.ledger b data.method
      let potentialSigners :=
        (getPotentialSigners env.ledger b data.method).filter
          (fun signer => signer.1 != data.initiator.publicKey)
      if 0 < potentialSigners.length then
        match env.encodeWithKeys b (potentialSigners.map (·.1))
            ("#" ++ env.stringifyTx data.transaction) data.method with
        | none => some (.error .encodingFailed)
        | some encodedTx =>
          let signerList : List RequestSignatureSigner :=
            potentialSigners.map (fun ps =>
              { encryptedTransaction := lookupCipher encodedTx ps.1
                publicKey := ps.1
                weight := toString ps.2 })
          some (.ok
            { signatureRequest :=
                { expirationDate := data.expirationDate
                  threshold := threshold
                  keyType := data.method
                  signers := signerList }
              initialSigner :=
                { username := data.initiator.username
                  publicKey := data.initiator.publicKey
                  signature := signedTransaction.signatures.head?
                  weight := data.initiator.weight } })
      else none
    else some (.error .broadcasterUnresolved)

/-- The earlier revision's `encodeTransaction` (class method): receivers
come from the explicit `data.authority` via `getEncodedTxReceivers`, and
no initiator filtering is performed.  As in the source, when
`receivers.length === 0` the executor falls through without resolving or
rejecting (`none`). -/
def encodeTransactionLegacy (env : Env) (data : IEncodeTransactionLegacy) :
    Option (Except EncodeError RequestSignatureMessage) :=
  match env.signTx data.initiator.username data.transaction data.method with
  | none => some (.error .signingFailed)
  | some signedTransaction =>
    match getEncodedTxReceivers env.ledger data.authority data.method with
    | .error _ => some (.error .thrown)
    | .ok receivers =>
      if 0 < receivers.length then
        match env.encodeWithKeys data.initiator.username
            (receivers.map (·.1))
            ("#" ++ env.stringifySignedTx signedTransaction) data.method with
        | none => some (.error .encodingFailed)
        | some encodedTx =>
          let signerList : List RequestSignatureSigner :=
            receivers.map (fun r =>
              { encryptedTransaction := lookupCipher encodedTx r.1
                publicKey := r.1
                weight := toString r.2 })
          some (.ok
            { signatureRequest :=
                { expirationDate := data.expirationDate
                  threshold := some data.authority.weight_threshold
                  keyType := data.method
                  signers := signerList }
              initialSigner :=
                { username := data.initiator.username
                  publicKey := data.initiator.publicKey
                  signature := signedTransaction.signatures.head?
                  weight := data.initiator.weight } })
      else none

/-- `wss.signTransaction` (identical logic in the earlier class-level
`signTransaction`): on provider success it emits a
`SignTransactionMessage` whose `signature` is
`signatures[signatures.length - 1]`; on provider failure the promise
rejects and no message is emitted (`none`). -/
def wssSignTransaction (env : Env) (data : ISignTransactionData) :
    Option SignTransactionMessage :=
  match env.signTx data.username data.decodedTransaction data.method with
  | none => none
  | some signedTransaction =>
    some
      { signature :=
          signedTransaction.signatures[signedTransaction.signatures.length - 1]?
        signerId := data.signerId
        signatureRequestId := data.signatureRequestId }

/-! ## Decoders.  A JavaScript promise settles with the FIRST
`resolve`/`reject` call; rejects issued inside the loops therefore decide
the observable result even though the source keeps iterating.  The
embeddings return that first settlement. -/

/-- Failure reasons of the decoders' `reject` calls. -/
inductive DecodeError
  | emptyRequest
  | noPublicKey
  | decodingFailed
  | invalidInitiator
  | parseFailed
  | noDecodable
deriving DecidableEq

/-- Processing of one matched signer entry inside `utils.decodeTransaction`:
decrypt, strip the leading `#`, JSON-parse, then validate the declared
initiator's authority over the broadcaster; any failure is a `reject`. -/
def decodeEntry (env : Env) (username : String) (req : SignatureRequestRec)
    (signer : SignerRec) : Except DecodeError ITransactionRec :=
  match env.decode username signer.encryptedTransaction req.keyType with
  | none => .error .decodingFailed
  | some resultStr =>
    match env.parseTx (stripFirstHash resultStr) with
    | none => .error .parseFailed
    | some decodedTx =>
      match validateInitiatorOverBroadcaster env.ledger req.initiator
          req.keyType decodedTx with
      | some true =>
        .ok
          { signer := signer
            signatureRequestId := req.id
            transaction := decodedTx
            method := req.keyType
            username := username }
      | _ => .error .invalidInitiator

/-- The signer loop of `utils.decodeTransaction`: entries whose public
key is not one of the decoding user's keys are skipped; the first
rejecting entry settles the promise. -/
def decodeSigners (env : Env) (username : String) (req : SignatureRequestRec)
    (keys : List String) : List SignerRec →
    Except DecodeError (List ITransactionRec)
  | [] => .ok []
  | s :: rest =>
    if keys.contains s.publicKey then
      match decodeEntry env username req s with
      | .error e => .error e
      | .ok tx =>
        match decodeSigners env username req keys rest with
        | .error e => .error e
        | .ok txs => .ok (tx :: txs)
    else decodeSigners env username req keys rest

/-- The request loop of `utils.decodeTransaction`: the decoding user's
keys are resolved per request (a failed lookup is a `reject`), then each
request's signer entries are processed; note there is no skipping of
requests whose initiator is the decoding user in this revision. -/
def decodeRequests (env : Env) (username : String) :
    List SignatureRequestRec → Except DecodeError (List ITransactionRec)
  | [] => .ok []
  | req :: rest =>
    match getPublicKeys env.ledger username req.keyType with
    | none => .error .noPublicKey
    | some keys =>
      match decodeSigners env username req keys req.signers with
      | .error e => .error e
      | .ok txs =>
        match decodeRequests env username rest with
        | .error e => .error e
        | .ok more => .ok (txs ++ more)

/-- `utils.decodeTransaction` (current revision): empty input rejects;
after the loops, zero accumulated transactions reject with
`No decoded transactions`, otherwise the accumulated list resolves. -/
def utilsDecodeTransaction (env : Env) (requests : List SignatureRequestRec)
    (username : String) : Except DecodeError (List ITransactionRec) :=
  if requests.length ≤ 0 then .error .emptyRequest
  else
    match decodeRequests env username requests with
    | .error e => .error e
    | .ok txs => if txs.length = 0 then .error .noDecodable else .ok txs

/-- Processing of one matched signer entry in the earlier
`decodeTransaction` revision: an unsuccessful decrypt is silently
skipped (`.ok none`), a parse exception rejects, and no authority
validation is performed. -/
def legacyDecodeEntry (env : Env) (username : String)
    (req : SignatureRequestRec) (signer : SignerRec) :
    Except DecodeError (Option ITransactionLegacyRec) :=
  match env.decode username signer.encryptedTransaction req.keyType with
  | none => .ok none
  | some resultStr =>
    match env.parseTx (stripFirstHash resultStr) with
    | none => .error .parseFailed
    | some decodedTx =>
      .ok (some
        { signerId := signer.id
          signatureRequestId := req.id
          transaction := decodedTx
          method := req.keyType
          username := username })

/-- The signer loop of the earlier `decodeTransaction` revision. -/
def legacyDecodeSigners (env : Env) (username : String)
    (req : SignatureRequestRec) (keys : List String) : List SignerRec →
    Except DecodeError (List ITransactionLegacyRec)
  | [] => .ok []
  | s :: rest =>
    if keys.contains s.publicKey then
      match legacyDecodeEntry env username req s with
      | .error e => .error e
      | .ok none => legacyDecodeSigners env username req keys rest
      | .ok (some tx) =>
        match legacyDecodeSigners env username req keys rest with
        | .error e => .error e
        | .ok txs => .ok (tx :: txs)
    else legacyDecodeSigners env username req keys rest

/-- The request loop of the earlier `decodeTransaction` revision: the
user's keys are resolved first, then a request whose `initiator` equals
the decoding user is skipped (`dont decode for initiator`). -/
def legacyDecodeRequests (env : Env) (username : String) :
    List SignatureRequestRec → Except DecodeError (List ITransactionLegacyRec)
  | [] => .ok []
  | req :: rest =>
    match getPublicKeys env.ledger username req.keyType with
    | none => .error .noPublicKey
    | some keys =>
      if req.initiator != username then
        match legacyDecodeSigners env username req keys req.signers with
        | .error e => .error e
        | .ok txs =>
          match legacyDecodeRequests env username rest with
          | .error e => .error e
          | .ok more => .ok (txs ++ more)
      else legacyDecodeRequests env username rest

/-- The earlier `decodeTransaction` revision: empty input rejects; the
accumulated list is resolved even when empty (no
`No decoded transactions` check in this revision). -/
def legacyDecodeTransaction (env : Env)
    (requests : List SignatureRequestRec) (username : String) :
    Except DecodeError (List ITransactionLegacyRec) :=
  if requests.length ≤ 0 then .error .emptyRequest
  else legacyDecodeRequests env username requests

/-- Follows the amended claim C4's words, not the source: the list of
transactions that the decoding succeeds on when EVERY matched entry
decodes, parses and validates, and `none` as soon as any key lookup or
matched entry fails.  Compared against `utilsDecodeTransaction`. -/
def collectSignersOk (env : Env) (username : String)
    (req : SignatureRequestRec) (keys : List String) : List SignerRec →
    Option (List ITransactionRec)
  | [] => some []
  | s :: rest =>
    if keys.contains s.publicKey then
      match decodeEntry env username req s with
      | .error _ => none
      | .ok tx => (collectSignersOk env username req keys rest).map (tx :: ·)
    else collectSignersOk env username req keys rest

/-- Follows the amended claim C4's words, not the source: request-level
lifting of `collectSignersOk`. -/
def collectRequestsOk (env : Env) (username : String) :
    List SignatureRequestRec → Option (List ITransactionRec)
  | [] => some []
  | req :: rest =>
    match getPublicKeys env.ledger username req.keyType with
    | none => none
    | some keys =>
      match collectSignersOk env username req keys req.signers with
      | none => none
      | some txs => (collectRequestsOk env username rest).map (txs ++ ·)

/-! ## Concrete fixtures used by counterexamples and witnesses -/

/-- A small ledger: `alice`, `bob` and `carol` are simple accounts
(`alice`'s active key also has weight over `carol`); `dave` carries the
key `STMX` only in his posting authority; `team` delegates its active
authority to `alice` at weight 3; `duo` and `solo` are broadcaster
accounts for the encoder fixtures. -/
def fixLedger : Ledger := fun u =>
  if u = "alice" then some ⟨⟨1, [], [("STMA", 1)]⟩, ⟨1, [], [("STMAP", 1)]⟩⟩
  else if u = "bob" then some ⟨⟨1, [], [("STMB", 1)]⟩, ⟨1, [], [("STMBP", 1)]⟩⟩
  else if u = "carol" then
    some ⟨⟨1, [], [("STMA", 1)]⟩, ⟨1, [], [("STMCP", 1)]⟩⟩
  else if u = "dave" then some ⟨⟨1, [], []⟩, ⟨1, [], [("STMX", 5)]⟩⟩
  else if u = "team" then some ⟨⟨2, [("alice", 3)], [("STMT", 1)]⟩, ⟨1, [], []⟩⟩
  else if u = "duo" then
    some ⟨⟨2, [], [("STMI", 1), ("STMB", 1)]⟩, ⟨1, [], []⟩⟩
  else if u = "solo" then some ⟨⟨1, [], [("STMI", 1)]⟩, ⟨1, [], []⟩⟩
  else none

/-- A transaction with a single transfer sent by `carol`. -/
def txTransferCarol : Tx :=
  ⟨some [⟨"transfer", some [("from", FieldVal.str "carol")]⟩]⟩

/-- A transaction with a single transfer sent by `duo`. -/
def txTransferDuo : Tx :=
  ⟨some [⟨"transfer", some [("from", FieldVal.str "duo")]⟩]⟩

/-- A transaction with a single transfer sent by `solo`. -/
def txTransferSolo : Tx :=
  ⟨some [⟨"transfer", some [("from", FieldVal.str "solo")]⟩]⟩

/-- A transaction with a missing operation list. -/
def txNoOps : Tx := ⟨none⟩

/-- A concrete environment over `fixLedger`: signing always yields the
two-signature transaction, batched encryption returns one ciphertext per
requested key, and decryption succeeds exactly on the ciphertext
`enc-good`, whose plaintext parses to `txTransferCarol`. -/
def fixEnv : Env :=
  { ledger := fixLedger
    signTx := fun _ _ _ => some ⟨["sig0", "sig1"]⟩
    encodeWithKeys := fun _ keys _ _ =>
      some (keys.map fun k => (k, "enc-" ++ k))
    decode := fun _ msg _ => if msg == "enc-good" then some "#payload" else none
    parseTx := fun s => if s == "payload" then some txTransferCarol else none
    stringifyTx := fun _ => "tx"
    stringifySignedTx := fun _ => "stx" }



/-- Legacy-encoder input whose authority lists the initiator's own key
`STMI`. -/
def legacyEncodeData : IEncodeTransactionLegacy :=
  { transaction := txTransferCarol
    method := KeyType.active
    expirationDate := 0
    initiator := { username := "alice", publicKey := "STMI", weight := 1 }
    authority := ⟨2, [], [("STMI", 1), ("STMB", 1)]⟩ }

/-- The message the legacy encoder produces on `legacyEncodeData`. -/
def legacyEncodeMsg : RequestSignatureMessage :=
  { signatureRequest :=
      { expirationDate := 0
        threshold := some 2
        keyType := KeyType.active
        signers :=
          [{ encryptedTransaction := some "enc-STMI", publicKey := "STMI",
             weight := "1" },
           { encryptedTransaction := some "enc-STMB", publicKey := "STMB",
             weight := "1" }] }
    initialSigner :=
      { username := "alice", publicKey := "STMI", signature := some "sig0",
        weight := 1 } }

/-- Current-encoder input addressed to the broadcaster `duo`, whose
authority lists the initiator's key `STMI` and the co-signer key
`STMB`. -/
def duoEncodeData : IEncodeTransaction :=
  { transaction := txTransferDuo
    method := KeyType.active
    expirationDate := 0
    initiator := { username := "alice", publicKey := "STMI", weight := 1 } }

/-- The message `utils.encodeTransaction` produces on `duoEncodeData`:
only the non-initiator key `STMB` is fanned out. -/
def duoEncodeMsg : RequestSignatureMessage :=
  { signatureRequest :=
      { expirationDate := 0
        threshold := some 2
        keyType := KeyType.active
        signers :=
          [{ encryptedTransaction := some "enc-STMB", publicKey := "STMB",
             weight := "1" }] }
    initialSigner :=
      { username := "alice", publicKey := "STMI", signature := some "sig0",
        weight := 1 } }

/-- A request initiated by `alice` carrying two entries addressed to
`bob`: the first ciphertext fails to decrypt, the second one succeeds and
validates. -/
def failReq : SignatureRequestRec :=
  { id := 5, expirationDate := 0, threshold := 1, keyType := KeyType.active
    initiator := "alice"
    signers := [⟨11, "STMB", "enc-bad", 1⟩, ⟨12, "STMB", "enc-good", 1⟩] }

/-- A request initiated by `alice` whose single entry is addressed to
`alice`'s own key. -/
def selfReq : SignatureRequestRec :=
  { id := 6, expirationDate := 0, threshold := 1, keyType := KeyType.active
    initiator := "alice"
    signers := [⟨21, "STMA", "enc-good", 1⟩] }

/-! ## Shared helper lemmas -/

/-- The last element of a list is the element at index `length - 1`
(the `signatures[signatures.length - 1]` idiom). -/
theorem getElemLenSubOne_eq_getLast (l : List String) :
    l[l.length - 1]? = l.getLast? := by
  induction l with
  | nil => rfl
  | cons a l ih =>
    cases l with
    | nil => rfl
    | cons b m =>
      rw [List.getLast?_cons_cons]
      simpa using ih

/-!
Claim C7 (status: code_bug)

`getAuthorityWeightOverUser`'s `switch` has no `break` between the
`active` and `posting` cases, so an active-keyClass query whose principal
is absent from the active authority falls through and returns the
principal's weight in the POSTING authority — contradicting the claim
(and the spec's stated intent) that each key class is fully independent
and that absence yields `undefined`.
-/

/-- C7: on the failing input — account `dave`, principal `STMX`, key
class `active` — the principal is absent from the active authority
(both directly and as a potential signer), yet the code returns the
posting-authority weight `5` instead of `undefined`. -/
theorem getAuthorityWeightOverUser_active_fallthrough_bug :
    authorityWeightIn ⟨1, [], []⟩ "STMX" = none ∧
    getAuthorityWeightOverUser fixLedger "STMX" "dave" KeyType.active =
      some 5 := by
  constructor
  · rfl
  · rfl

/-!
Claim C10 (status: confirmed)

`wss.signTransaction` (and the identical class-level `signTransaction`)
emits, on signing success, a message carrying exactly the last element of
the signed transaction's `signatures` array, with `signerId` and
`signatureRequestId` copied unchanged.
-/

/-- C10: whenever the signing provider succeeds, the emitted
`SignTransactionMessage` carries exactly the last signature of the signed
transaction and copies the two identifiers from the input. -/
theorem signTransaction_emits_last_signature (env : Env)
    (data : ISignTransactionData) (st : SignedTx)
    (h : env.signTx data.username data.decodedTransaction data.method =
      some st) :
    wssSignTransaction env data =
      some
        { signature := st.signatures.getLast?
          signerId := data.signerId
          signatureRequestId := data.signatureRequestId } := by
  unfold wssSignTransaction
  rw [h, ← getElemLenSubOne_eq_getLast]

/-- C10 witness: a concrete run with two signatures emits the second. -/
theorem signTransaction_emits_last_signature_witness :
    wssSignTransaction fixEnv ⟨txTransferCarol, 7, 9, "bob", KeyType.active⟩ =
      some { signature := some "sig1", signerId := 7,
             signatureRequestId := 9 } :=
  signTransaction_emits_last_signature fixEnv
    ⟨txTransferCarol, 7, 9, "bob", KeyType.active⟩ ⟨["sig0", "sig1"]⟩ rfl

/-!
Claim C8 (status: confirmed)

`getPotentialSigners` expands each account principal of the authority to
that account's own keys for the same key class at the parent entry's
weight (one level of indirection only), followed by the direct key
principals, in declaration order.
-/

/-- The account-principals loop of `getPotentialSigners` for the active
key class equals a `flatMap` over the entries, where each delegated
account contributes its OWN `key_auths` keys (one level only — no
recursion into the delegated account's `account_auths`) at the parent
entry's weight. -/
theorem expandAccountAuths_active_eq (ledger : Ledger)
    (l : List (String × Nat)) :
    expandAccountAuths ledger KeyType.active l =
      l.flatMap fun aw =>
        match ledger aw.1 with
        | none => []
        | some d => d.active.key_auths.map fun kw => (kw.1, aw.2) := by
  induction l with
  | nil => rfl
  | cons aw rest ih =>
    obtain ⟨acc, w⟩ := aw
    simp only [expandAccountAuths, List.flatMap_cons, ih]
    congr 1
    unfold getPublicKeys getAccount
    cases ledger acc with
    | none => rfl
    | some d =>
      show (d.active.key_auths.map (·.1)).map (fun pk => (pk, w)) =
        d.active.key_auths.map fun kw => (kw.1, w)
      simp [List.map_map]

/-- Posting-key-class version of `expandAccountAuths_active_eq`. -/
theorem expandAccountAuths_posting_eq (ledger : Ledger)
    (l : List (String × Nat)) :
    expandAccountAuths ledger KeyType.posting l =
      l.flatMap fun aw =>
        match ledger aw.1 with
        | none => []
        | some d => d.posting.key_auths.map fun kw => (kw.1, aw.2) := by
  induction l with
  | nil => rfl
  | cons aw rest ih =>
    obtain ⟨acc, w⟩ := aw
    simp only [expandAccountAuths, List.flatMap_cons, ih]
    congr 1
    unfold getPublicKeys getAccount
    cases ledger acc with
    | none => rfl
    | some d =>
      show (d.posting.key_auths.map (·.1)).map (fun pk => (pk, w)) =
        d.posting.key_auths.map fun kw => (kw.1, w)
      simp [List.map_map]

/-- C8: for every existing account and key class in {active, posting},
the potential-signer list is exactly the account-principal expansions
(each delegated account's own keys at the inherited weight, one level of
indirection) followed by the direct key principals, in declaration
order. -/
theorem getPotentialSigners_spec (ledger : Ledger) (u : String)
    (kt : KeyType) (acct : Account) (h : ledger u = some acct)
    (hkt : kt = KeyType.active ∨ kt = KeyType.posting) :
    getPotentialSigners ledger u kt =
      ((if kt = KeyType.active then acct.active
        else acct.posting).account_auths.flatMap fun aw =>
          match ledger aw.1 with
          | none => []
          | some d =>
            (if kt = KeyType.active then d.active
             else d.posting).key_auths.map fun kw => (kw.1, aw.2)) ++
        (if kt = KeyType.active then acct.active
         else acct.posting).key_auths := by
  unfold getPotentialSigners getAccount
  rw [h]
  rcases hkt with hkt | hkt <;> subst hkt
  · show expandAccountAuths ledger KeyType.active acct.active.account_auths ++
      acct.active.key_auths = _
    rw [expandAccountAuths_active_eq]
    simp
  · show expandAccountAuths ledger KeyType.posting
        acct.posting.account_auths ++ acct.posting.key_auths = _
    rw [expandAccountAuths_posting_eq]
    simp

/-- C8 witness: `team` delegates its active authority to `alice` at
weight 3, so the potential signers are `alice`'s active key at weight 3
followed by `team`'s direct key. -/
theorem getPotentialSigners_spec_witness :
    getPotentialSigners fixLedger "team" KeyType.active =
      [("STMA", 3), ("STMT", 1)] := by
  have h := getPotentialSigners_spec fixLedger "team" KeyType.active
    ⟨⟨2, [("alice", 3)], [("STMT", 1)]⟩, ⟨1, [], []⟩⟩ rfl (Or.inl rfl)
  exact h.trans (by decide)

/-! ## Helper lemmas about the broadcaster-extraction loop -/

/-- A `string | undefined` value is truthy exactly when it is a
non-empty string. -/
theorem jsTruthyStr_iff (o : Option String) :
    jsTruthyStr o = true ↔ ∃ s, o = some s ∧ s ≠ "" := by
  cases o with
  | none => simp [jsTruthyStr]
  | some s => simp [jsTruthyStr]

/-- A structurally malformed operation anywhere in the list makes the
extraction loop return `undefined`, whatever the accumulator holds. -/
theorem extractUsernameLoop_malformed (ops : List Op) (acc : Option String)
    (h : ∃ op ∈ ops, op.kind = "" ∨ op.payload = none) :
    extractUsernameLoop ops acc = none := by
  induction ops generalizing acc with
  | nil => simp at h
  | cons op rest ih =>
    obtain ⟨op', hmem, hbad⟩ := h
    rw [extractUsernameLoop]
    by_cases hk : (op.kind == "") = true
    · rw [if_pos hk]
    · rw [if_neg hk]
      cases hp : op.payload with
      | none => rfl
      | some p =>
        have hop' : op' ∈ rest := by
          rcases List.mem_cons.1 hmem with rfl | hmem'
          · rcases hbad with hbad | hbad
            · exact absurd (by simp [hbad]) hk
            · rw [hp] at hbad
              exact absurd hbad (by simp)
          · exact hmem'
        dsimp only
        split
        · rfl
        · exact ih _ ⟨op', hop', hbad⟩

/-- Once the accumulator holds a non-empty username, an operation in the
remainder whose acting account is `undefined` (unrecognized kind or
missing mapped field) forces the extraction loop to return
`undefined`. -/
theorem extractUsernameLoop_acting_none (ops : List Op) (a : String)
    (ha : a ≠ "") (h : ∃ op ∈ ops, opActing op = none) :
    extractUsernameLoop ops (some a) = none := by
  induction ops generalizing a with
  | nil => simp at h
  | cons op rest ih =>
    obtain ⟨op', hmem, hbad⟩ := h
    rw [extractUsernameLoop]
    by_cases hk : (op.kind == "") = true
    · rw [if_pos hk]
    · rw [if_neg hk]
      cases hp : op.payload with
      | none => rfl
      | some p =>
        dsimp only
        cases hn : actingAccountOf op.kind p with
        | none =>
          rw [if_pos]
          rw [Bool.and_eq_true]
          constructor
          · simpa [jsTruthyStr_iff] using ha
          · simp
        | some c =>
          have hop' : op' ∈ rest := by
            rcases List.mem_cons.1 hmem with rfl | hmem'
            · simp [opActing, hp, hn] at hbad
            · exact hmem'
          by_cases hac : a = c
          · subst hac
            rw [if_neg (by simp)]
            exact ih a ha ⟨op', hop', hbad⟩
          · rw [if_pos]
            rw [Bool.and_eq_true]
            constructor
            · simpa [jsTruthyStr_iff] using ha
            · simpa using hac

/-- With a truthy accumulator and well-formed operations, the extraction
loop keeps the accumulator exactly when every remaining operation agrees
with it, and aborts otherwise. -/
theorem extractUsernameLoop_wf_const (ops : List Op) (a : String)
    (ha : a ≠ "") (hwf : ∀ op ∈ ops, opWF op = true) :
    extractUsernameLoop ops (some a) =
      if ops.all (fun op => opActing op == some a) then some a else none := by
  induction ops generalizing a with
  | nil => simp [extractUsernameLoop]
  | cons op rest ih =>
    have hop := hwf op (List.mem_cons_self op rest)
    rw [opWF, Bool.and_eq_true, Bool.and_eq_true] at hop
    obtain ⟨⟨hk, hps⟩, hjt⟩ := hop
    obtain ⟨b, hb, hbne⟩ := (jsTruthyStr_iff _).1 hjt
    obtain ⟨p, hp⟩ := Option.isSome_iff_exists.1 hps
    have hact : actingAccountOf op.kind p = some b := by
      simpa [opActing, hp] using hb
    rw [extractUsernameLoop, if_neg (by simpa using hk), hp]
    dsimp only
    rw [hact]
    by_cases hab : a = b
    · subst hab
      rw [if_neg (by simp)]
      rw [ih a ha (fun o ho => hwf o (List.mem_cons_of_mem op ho))]
      have hopa : (opActing op == some a) = true := by
        simp [opActing, hp, hact]
      simp [List.all_cons, hopa]
    · rw [if_pos]
      · have hopa : (opActing op == some a) = false := by
          simp [opActing, hp, hact]
          exact fun hba => absurd hba.symm hab
        simp [List.all_cons, hopa]
      · rw [Bool.and_eq_true]
        constructor
        · simpa [jsTruthyStr_iff] using ha
        · simpa using hab

/-- A well-formed operation (recognized kind, operand present, non-empty
acting account) anywhere in the list either aborts the loop or pins the
accumulator to a truthy username, so an operation with `undefined`
acting account anywhere AFTER it forces the extraction loop to return
`undefined`, whatever the accumulator held initially. -/
theorem extractUsernameLoop_wf_then_none (l₁ : List Op) (opW : Op)
    (l₂ : List Op) (acc : Option String) (hwf : opWF opW = true)
    (h : ∃ op ∈ l₂, opActing op = none) :
    extractUsernameLoop (l₁ ++ opW :: l₂) acc = none := by
  induction l₁ generalizing acc with
  | nil =>
    rw [opWF, Bool.and_eq_true, Bool.and_eq_true] at hwf
    obtain ⟨⟨hk, hps⟩, hjt⟩ := hwf
    obtain ⟨b, hb, hbne⟩ := (jsTruthyStr_iff _).1 hjt
    obtain ⟨p, hp⟩ := Option.isSome_iff_exists.1 hps
    have hact : actingAccountOf opW.kind p = some b := by
      simpa [opActing, hp] using hb
    rw [List.nil_append]
    rw [extractUsernameLoop, if_neg (by simpa using hk), hp]
    dsimp only
    rw [hact]
    by_cases hc : (jsTruthyStr acc && acc != some b) = true
    · rw [if_pos hc]
    · rw [if_neg hc]
      exact extractUsernameLoop_acting_none l₂ b hbne h
  | cons op l₁x ih =>
    rw [List.cons_append]
    rw [extractUsernameLoop]
    by_cases hk : (op.kind == "") = true
    · rw [if_pos hk]
    · rw [if_neg hk]
      cases hp : op.payload with
      | none => rfl
      | some p =>
        dsimp only
        by_cases hc :
            (jsTruthyStr acc && acc != actingAccountOf op.kind p) = true
        · rw [if_pos hc]
        · rw [if_neg hc]
          exact ih _

/-!
Claim C2 (status: corrected)

For transactions whose operations are all recognized and well-formed,
`getUsernameFromTransaction` returns the single/common acting account and
fails on disagreement — EXCEPT that the disagreement check uses
JavaScript truthiness, so an operation whose acting account is the empty
string is treated as if no account had been seen yet, and a later,
different account wins instead of the extraction failing.  The claim is
amended with the proviso that every acting account is non-empty.
-/

/-- C2 counterexample: the two operations' acting accounts differ
(`""` vs `"hi"`), yet extraction returns `"hi"` instead of failing,
because the empty-string acting account of the first operation is falsy
and gets silently overwritten. -/
theorem getUsernameFromTransaction_disagree_counterexample :
    opActing ⟨"transfer", some [("from", FieldVal.str "")]⟩ = some "" ∧
    opActing ⟨"vote", some [("voter", FieldVal.str "hi")]⟩ = some "hi" ∧
    getUsernameFromTransaction
      ⟨some [⟨"transfer", some [("from", FieldVal.str "")]⟩,
             ⟨"vote", some [("voter", FieldVal.str "hi")]⟩]⟩ = some "hi" := by
  refine ⟨rfl, rfl, rfl⟩

/-- C2 (amended): for a transaction whose operations are all recognized,
well-formed, and have NON-EMPTY acting accounts, extraction returns the
common acting account when all operations agree (hence the single
operation's acting account for singleton transactions), and `undefined`
as soon as two operations' acting accounts differ. -/
theorem getUsernameFromTransaction_per_kind (tx : Tx) (ops : List Op)
    (hops : tx.operations = some ops) (hwf : ∀ op ∈ ops, opWF op = true) :
    (∀ a, ops ≠ [] → (∀ op ∈ ops, opActing op = some a) →
      getUsernameFromTransaction tx = some a) ∧
    (∀ op₁ op₂, op₁ ∈ ops → op₂ ∈ ops → opActing op₁ ≠ opActing op₂ →
      getUsernameFromTransaction tx = none) := by
  cases ops with
  | nil =>
    constructor
    · intro a hne
      exact absurd rfl hne
    · intro op₁ op₂ h₁
      simp at h₁
  | cons op rest =>
    have hop := hwf op (List.mem_cons_self op rest)
    rw [opWF, Bool.and_eq_true, Bool.and_eq_true] at hop
    obtain ⟨⟨hk, hps⟩, hjt⟩ := hop
    obtain ⟨b, hb, hbne⟩ := (jsTruthyStr_iff _).1 hjt
    obtain ⟨p, hp⟩ := Option.isSome_iff_exists.1 hps
    have hact : actingAccountOf op.kind p = some b := by
      simpa [opActing, hp] using hb
    have hstep : getUsernameFromTransaction tx =
        extractUsernameLoop rest (some b) := by
      rw [getUsernameFromTransaction, hops]
      dsimp only
      rw [extractUsernameLoop, if_neg (by simpa using hk), hp]
      dsimp only
      rw [hact]
      rw [if_neg (by simp [jsTruthyStr])]
    have hloop := extractUsernameLoop_wf_const rest b hbne
      (fun o ho => hwf o (List.mem_cons_of_mem op ho))
    constructor
    · intro a _ hall
      have hab : b = a := by
        have h0 := hall op (List.mem_cons_self op rest)
        rw [hb] at h0
        exact Option.some_inj.1 h0
      subst hab
      rw [hstep, hloop, if_pos]
      rw [List.all_eq_true]
      intro o ho
      rw [hall o (List.mem_cons_of_mem op ho)]
      simp
    · intro op₁ op₂ h₁ h₂ hdiff
      rw [hstep, hloop]
      by_cases hall : (rest.all fun o => opActing o == some b) = true
      · exfalso
        rw [List.all_eq_true] at hall
        have hsame : ∀ o ∈ op :: rest, opActing o = some b := by
          intro o ho
          rcases List.mem_cons.1 ho with rfl | ho'
          · exact hb
          · exact eq_of_beq (hall o ho')
        exact hdiff ((hsame op₁ h₁).trans (hsame op₂ h₂).symm)
      · rw [if_neg hall]

/-- C2 witness: two agreeing operations (`transfer from hi`,
`vote by hi`) extract to `hi`. -/
theorem getUsernameFromTransaction_per_kind_witness :
    getUsernameFromTransaction
      ⟨some [⟨"transfer", some [("from", FieldVal.str "hi")]⟩,
             ⟨"vote", some [("voter", FieldVal.str "hi")]⟩]⟩ = some "hi" :=
  (getUsernameFromTransaction_per_kind
    ⟨some [⟨"transfer", some [("from", FieldVal.str "hi")]⟩,
           ⟨"vote", some [("voter", FieldVal.str "hi")]⟩]⟩
    [⟨"transfer", some [("from", FieldVal.str "hi")]⟩,
     ⟨"vote", some [("voter", FieldVal.str "hi")]⟩]
    rfl (by decide)).1 "hi" (by decide) (by decide)

/-!
Claim C3 (status: corrected)

`getUsernameFromTransaction` does fail closed on missing/empty operation
lists and on structurally malformed operations anywhere in the list, but
an operation with an UNRECOGNIZED kind does not abort extraction when it
precedes the first recognized operation: its `undefined` acting account
merely leaves the accumulator unset, and a later recognized operation
supplies the result.
-/

/-- C3 counterexample: the first operation's kind is unrecognized (its
acting account is `undefined`), yet extraction returns the second
operation's account `"hi"` instead of failing. -/
theorem getUsernameFromTransaction_unrecognized_counterexample :
    actingAccountOf "mystery_kind" [] = none ∧
    getUsernameFromTransaction
      ⟨some [⟨"mystery_kind", some []⟩,
             ⟨"transfer", some [("from", FieldVal.str "hi")]⟩]⟩ =
      some "hi" := by
  refine ⟨rfl, rfl⟩

/-- C3 (amended): extraction returns `undefined` for a missing operation
list, for an empty operation list, for a structurally malformed operation
(empty kind tag or missing operand object) at ANY position, and for an
operation with `undefined` acting account (unrecognized kind or missing
mapped field) whenever it comes anywhere after a well-formed operation
with a non-empty acting account, at any position in the list; an
unrecognized operation BEFORE any recognized one, however, is skipped
rather than failing (see the counterexample). -/
theorem getUsernameFromTransaction_fail_closed (tx : Tx) :
    (tx.operations = none → getUsernameFromTransaction tx = none) ∧
    (tx.operations = some [] → getUsernameFromTransaction tx = none) ∧
    (∀ ops, tx.operations = some ops →
      (∃ op ∈ ops, op.kind = "" ∨ op.payload = none) →
      getUsernameFromTransaction tx = none) ∧
    (∀ l₁ opW l₂, tx.operations = some (l₁ ++ opW :: l₂) →
      opWF opW = true → (∃ op ∈ l₂, opActing op = none) →
      getUsernameFromTransaction tx = none) := by
  refine ⟨?_, ?_, ?_, ?_⟩
  · intro h
    rw [getUsernameFromTransaction, h]
  · intro h
    rw [getUsernameFromTransaction, h]
  · intro ops hops hbad
    cases ops with
    | nil => rw [getUsernameFromTransaction, hops]
    | cons op rest =>
      rw [getUsernameFromTransaction, hops]
      exact extractUsernameLoop_malformed _ _ hbad
  · intro l₁ opW l₂ hops hwf hbad
    rw [getUsernameFromTransaction, hops]
    have hres := extractUsernameLoop_wf_then_none l₁ opW l₂ none hwf hbad
    cases hl : l₁ ++ opW :: l₂ with
    | nil => exact absurd hl (by simp)
    | cons a as =>
      rw [hl] at hres
      exact hres

/-- C3 witness: an unrecognized operation following a well-formed
transfer makes extraction fail closed, even when another unrecognized
operation precedes the transfer. -/
theorem getUsernameFromTransaction_fail_closed_witness :
    getUsernameFromTransaction
      ⟨some [⟨"mystery_kind", some []⟩,
             ⟨"transfer", some [("from", FieldVal.str "hi")]⟩,
             ⟨"mystery_kind", some []⟩]⟩ = none :=
  (getUsernameFromTransaction_fail_closed
    ⟨some [⟨"mystery_kind", some []⟩,
           ⟨"transfer", some [("from", FieldVal.str "hi")]⟩,
           ⟨"mystery_kind", some []⟩]⟩).2.2.2
    [⟨"mystery_kind", some []⟩]
    ⟨"transfer", some [("from", FieldVal.str "hi")]⟩
    [⟨"mystery_kind", some []⟩] rfl (by decide)
    ⟨⟨"mystery_kind", some []⟩, by decide, rfl⟩

/-!
Claim C1 (status: corrected)

`validateInitiatorOverBroadcaster` returns `true` exactly when one of the
initiator's keys appears among the broadcaster's potential signers with
positive weight, and it never returns `true` when weights are zero or
keys are absent — but when broadcaster extraction fails it returns
`undefined`, NOT `false` (`if (!txUsername) return undefined`), so the
claim's "returns false" conjunct is amended to "returns undefined".
-/

/-- C1 counterexample: on a transaction with a missing operation list,
broadcaster extraction fails and `validateInitiatorOverBroadcaster`
returns `undefined` (`none`), not `false` as the claim states. -/
theorem validateInitiator_extraction_failure_counterexample :
    getUsernameFromTransaction txNoOps = none ∧
    validateInitiatorOverBroadcaster fixLedger "alice" KeyType.active
      txNoOps = none ∧
    validateInitiatorOverBroadcaster fixLedger "alice" KeyType.active
      txNoOps ≠ some false := by
  refine ⟨rfl, rfl, by decide⟩

/-- C1 (amended): `validateInitiatorOverBroadcaster` returns `undefined`
(not `false`) whenever broadcaster extraction fails, and it returns
`true` iff the broadcaster extracts to a non-empty account, the
initiator's keys resolve, and at least one of those keys appears among
the broadcaster's potential signers with weight strictly greater than
zero — in particular it never returns `true` when every matching key has
weight 0 or the initiator's keys are absent. -/
theorem validateInitiatorOverBroadcaster_spec (ledger : Ledger)
    (initiator : String) (kt : KeyType) (tx : Tx) :
    (jsTruthyStr (getUsernameFromTransaction tx) = false →
      validateInitiatorOverBroadcaster ledger initiator kt tx = none) ∧
    (validateInitiatorOverBroadcaster ledger initiator kt tx = some true ↔
      ∃ b, getUsernameFromTransaction tx = some b ∧ b ≠ "" ∧
        ∃ ks, getPublicKeys ledger initiator kt = some ks ∧
          ∃ k ∈ ks, ∃ p ∈ getPotentialSigners ledger b kt,
            k = p.1 ∧ 0 < p.2) := by
  constructor
  · intro h
    rw [validateInitiatorOverBroadcaster]
    simp [h]
  · rw [validateInitiatorOverBroadcaster]
    cases htu : getUsernameFromTransaction tx with
    | none => simp [jsTruthyStr]
    | some s =>
      by_cases hs : s = ""
      · subst hs
        simp [jsTruthyStr]
      · have hts : jsTruthyStr (some s) = true := by
          simpa [jsTruthyStr_iff] using hs
        simp only [hts, if_true]
        cases hpk : getPublicKeys ledger initiator kt with
        | none => simp
        | some ks =>
          simp only [Option.getD_some, Option.some_inj]
          constructor
          · intro hany
            rw [List.any_eq_true] at hany
            obtain ⟨k, hk, hinner⟩ := hany
            rw [List.any_eq_true] at hinner
            obtain ⟨pp, hpp, hcond⟩ := hinner
            rw [Bool.and_eq_true] at hcond
            exact ⟨s, rfl, hs, ks, rfl, k, hk, pp, hpp,
              eq_of_beq hcond.1, of_decide_eq_true hcond.2⟩
          · rintro ⟨b, hbeq, hbne, ks2, hks2, k, hkmem, pp, hppmem, hkp, hw⟩
            cases hbeq
            cases hks2
            rw [List.any_eq_true]
            refine ⟨k, hkmem, ?_⟩
            rw [List.any_eq_true]
            refine ⟨pp, hppmem, ?_⟩
            rw [Bool.and_eq_true]
            exact ⟨beq_of_eq hkp, decide_eq_true hw⟩

/-- C1 witness: `alice`'s active key `STMA` has weight 1 among `carol`'s
potential signers, so validating `alice` over a transfer sent by `carol`
yields `true`. -/
theorem validateInitiatorOverBroadcaster_spec_witness :
    validateInitiatorOverBroadcaster fixLedger "alice" KeyType.active
      txTransferCarol = some true :=
  (validateInitiatorOverBroadcaster_spec fixLedger "alice" KeyType.active
    txTransferCarol).2.mpr
    ⟨"carol", rfl, by decide, ["STMA"], rfl, "STMA", by decide,
      ("STMA", 1), by decide, rfl, by decide⟩

/-!
Claim C6 (status: corrected)

`utils.encodeTransaction` filters the initiator's public key out of the
potential-signer fan-out, so its signer entries never duplicate the
initiator — but the earlier class-level `encodeTransaction` builds its
receivers from the explicit authority WITHOUT filtering, and emits the
initiator as a regular signer entry whenever the authority lists the
initiator's key.
-/

/-- C6 counterexample: the earlier `encodeTransaction` revision emits a
signer entry whose public key equals the initiator's public key. -/
theorem encodeTransactionLegacy_includes_initiator_counterexample :
    legacyEncodeData.initiator.publicKey = "STMI" ∧
    encodeTransactionLegacy fixEnv legacyEncodeData =
      some (Except.ok legacyEncodeMsg) ∧
    legacyEncodeMsg.signatureRequest.signers.map
      (fun s => s.publicKey) = ["STMI", "STMB"] := by
  refine ⟨rfl, rfl, rfl⟩

/-- C6 (amended): in the current `utils.encodeTransaction`, every signer
entry of a successfully produced `RequestSignatureMessage` has a public
key different from the initiator's (the initiator is excluded from the
fan-out); the earlier class-level `encodeTransaction` performs no such
filtering and can emit the initiator as a signer entry. -/
theorem utilsEncodeTransaction_excludes_initiator (env : Env)
    (data : IEncodeTransaction) (msg : RequestSignatureMessage)
    (h : utilsEncodeTransaction env data = some (Except.ok msg)) :
    ∀ s ∈ msg.signatureRequest.signers,
      s.publicKey ≠ data.initiator.publicKey := by
  intro s hs
  unfold utilsEncodeTransaction at h
  cases hsig : env.signTx data.initiator.username data.transaction
      data.method with
  | none =>
    rw [hsig] at h
    simp at h
  | some st =>
    rw [hsig] at h
    dsimp only at h
    by_cases hb :
        jsTruthyStr (getUsernameFromTransaction data.transaction) = true
    · rw [if_pos hb] at h
      generalize hps : (getPotentialSigners env.ledger
          ((getUsernameFromTransaction data.transaction).getD "")
          data.method).filter
            (fun signer => signer.1 != data.initiator.publicKey) = ps at h
      by_cases hlen : 0 < ps.length
      · rw [if_pos hlen] at h
        cases henc : env.encodeWithKeys
            ((getUsernameFromTransaction data.transaction).getD "")
            (ps.map (·.1)) ("#" ++ env.stringifyTx data.transaction)
            data.method with
        | none =>
          rw [henc] at h
          simp at h
        | some enc =>
          rw [henc] at h
          dsimp only at h
          have hmsg := Except.ok.inj (Option.some_inj.1 h)
          have hsigners : msg.signatureRequest.signers =
              ps.map (fun q =>
                { encryptedTransaction := lookupCipher enc q.1
                  publicKey := q.1
                  weight := toString q.2 }) := by
            rw [← hmsg]
          rw [hsigners] at hs
          obtain ⟨q, hq, rfl⟩ := List.mem_map.1 hs
          rw [← hps] at hq
          have hfilt := (List.mem_filter.1 hq).2
          simpa using hfilt
      · rw [if_neg hlen] at h
        simp at h
    · rw [if_neg hb] at h
      simp at h

/-- C6 witness: a concrete successful `utils.encodeTransaction` run whose
sole signer entry differs from the initiator's key. -/
theorem utilsEncodeTransaction_excludes_initiator_witness :
    ("STMB" : String) ≠ duoEncodeData.initiator.publicKey :=
  utilsEncodeTransaction_excludes_initiator fixEnv duoEncodeData
    duoEncodeMsg rfl
    { encryptedTransaction := some "enc-STMB", publicKey := "STMB",
      weight := "1" } (by decide)

/-!
Claim C9 (status: corrected)

`utils.encodeTransaction` rejects with a specific reason on signing
failure, unresolved broadcaster, and encoding failure — but when the
broadcaster resolves and the initiator-filtered potential-signer list is
empty, the executor reaches its end without calling `resolve` or
`reject`: the promise never settles and the caller receives nothing.
-/

/-- C9 counterexample: sign succeeds and the broadcaster (`solo`)
resolves, but `solo`'s only potential signer is the initiator's own key,
so the filtered list is empty and the promise never settles (`none`). -/
theorem utilsEncodeTransaction_hang_counterexample :
    jsTruthyStr (getUsernameFromTransaction txTransferSolo) = true ∧
    (fixEnv.signTx "alice" txTransferSolo KeyType.active).isSome = true ∧
    utilsEncodeTransaction fixEnv
      { transaction := txTransferSolo
        method := KeyType.active
        expirationDate := 0
        initiator := { username := "alice", publicKey := "STMI",
                       weight := 1 } } = none := by
  refine ⟨rfl, rfl, rfl⟩

/-- C9 (amended): a `utils.encodeTransaction` call settles (resolves or
rejects with a specific reason) for every input EXCEPT exactly when
signing succeeds, the broadcaster resolves to a truthy account name, and
the initiator-filtered potential-signer list is empty — in that case the
promise never settles. -/
theorem utilsEncodeTransaction_settles_iff (env : Env)
    (data : IEncodeTransaction) :
    utilsEncodeTransaction env data = none ↔
      ((env.signTx data.initiator.username data.transaction
          data.method).isSome = true ∧
        jsTruthyStr (getUsernameFromTransaction data.transaction) = true ∧
        (getPotentialSigners env.ledger
            ((getUsernameFromTransaction data.transaction).getD "")
            data.method).filter
          (fun signer => signer.1 != data.initiator.publicKey) = []) := by
  unfold utilsEncodeTransaction
  cases hsig : env.signTx data.initiator.username data.transaction
      data.method with
  | none => simp
  | some st =>
    dsimp only
    by_cases hb :
        jsTruthyStr (getUsernameFromTransaction data.transaction) = true
    · rw [if_pos hb]
      generalize hps : (getPotentialSigners env.ledger
          ((getUsernameFromTransaction data.transaction).getD "")
          data.method).filter
            (fun signer => signer.1 != data.initiator.publicKey) = ps
      by_cases hlen : 0 < ps.length
      · rw [if_pos hlen]
        have hne : ps ≠ [] := List.length_pos.1 hlen
        cases henc : env.encodeWithKeys
            ((getUsernameFromTransaction data.transaction).getD "")
            (ps.map (·.1)) ("#" ++ env.stringifyTx data.transaction)
            data.method with
        | none => simp [hne]
        | some enc => simp [hne]
      · rw [if_neg hlen]
        have hz : ps = [] := by
          rw [← List.length_eq_zero]
          omega
        simp [hb, hz]
    · rw [if_neg hb]
      simp [hb]

/-!
Claim C4 (status: corrected)

In `utils.decodeTransaction` a matched entry that fails decryption,
parsing, or authority validation calls `reject` inside the loop; since a
promise settles with its FIRST `resolve`/`reject`, such a failure decides
the whole call — failures are NOT per-entry soft skips.  The
`No decoded transactions` rejection occurs exactly when all matched
entries succeed but zero transactions were accepted.
-/

/-- `decodeEntry` never rejects with the batch-level
`No decoded transactions` reason. -/
theorem decodeEntry_ne_noDecodable (env : Env) (u : String)
    (req : SignatureRequestRec) (s : SignerRec) :
    decodeEntry env u req s ≠ .error .noDecodable := by
  unfold decodeEntry
  split
  · simp
  · split
    · simp
    · split
      · simp
      · simp

/-- The signer loop never rejects with `No decoded transactions`. -/
theorem decodeSigners_ne_noDecodable (env : Env) (u : String)
    (req : SignatureRequestRec) (keys : List String) (ss : List SignerRec) :
    decodeSigners env u req keys ss ≠ .error .noDecodable := by
  induction ss with
  | nil => simp [decodeSigners]
  | cons s rest ih =>
    rw [decodeSigners]
    by_cases hc : keys.contains s.publicKey = true
    · rw [if_pos hc]
      cases hde : decodeEntry env u req s with
      | error e =>
        intro hcon
        obtain rfl := Except.error.inj hcon
        exact decodeEntry_ne_noDecodable env u req s hde
      | ok tx =>
        cases hds : decodeSigners env u req keys rest with
        | error e =>
          intro hcon
          obtain rfl := Except.error.inj hcon
          exact ih hds
        | ok txs => simp
    · rw [if_neg hc]
      exact ih

/-- The request loop never rejects with `No decoded transactions`. -/
theorem decodeRequests_ne_noDecodable (env : Env) (u : String)
    (reqs : List SignatureRequestRec) :
    decodeRequests env u reqs ≠ .error .noDecodable := by
  induction reqs with
  | nil => simp [decodeRequests]
  | cons req rest ih =>
    rw [decodeRequests]
    cases hk : getPublicKeys env.ledger u req.keyType with
    | none => simp
    | some keys =>
      dsimp only
      cases hds : decodeSigners env u req keys req.signers with
      | error e =>
        intro hcon
        obtain rfl := Except.error.inj hcon
        exact decodeSigners_ne_noDecodable env u req keys req.signers hds
      | ok txs =>
        cases hdr : decodeRequests env u rest with
        | error e =>
          intro hcon
          obtain rfl := Except.error.inj hcon
          exact ih hdr
        | ok more => simp

/-- The spec-side collector over one request's signers coincides with the
successful behaviour of the embedded signer loop. -/
theorem collectSignersOk_eq_toOption (env : Env) (u : String)
    (req : SignatureRequestRec) (keys : List String)
    (ss : List SignerRec) :
    collectSignersOk env u req keys ss =
      (decodeSigners env u req keys ss).toOption := by
  induction ss with
  | nil => rfl
  | cons s rest ih =>
    rw [collectSignersOk, decodeSigners]
    by_cases hc : keys.contains s.publicKey = true
    · rw [if_pos hc, if_pos hc]
      cases hde : decodeEntry env u req s with
      | error e => rfl
      | ok tx =>
        dsimp only
        rw [ih]
        cases decodeSigners env u req keys rest with
        | error e => rfl
        | ok txs => rfl
    · rw [if_neg hc, if_neg hc]
      exact ih
/-- The spec-side collector over the request list coincides with the
successful behaviour of the embedded request loop. -/
theorem collectRequestsOk_eq_toOption (env : Env) (u : String)
    (reqs : List SignatureRequestRec) :
    collectRequestsOk env u reqs = (decodeRequests env u reqs).toOption := by
  induction reqs with
  | nil => rfl
  | cons req rest ih =>
    rw [collectRequestsOk, decodeRequests]
    cases getPublicKeys env.ledger u req.keyType with
    | none => rfl
    | some keys =>
      dsimp only
      rw [collectSignersOk_eq_toOption]
      cases decodeSigners env u req keys req.signers with
      | error e => rfl
      | ok txs =>
        dsimp only
        rw [ih]
        cases decodeRequests env u rest with
        | error e => rfl
        | ok more => rfl

/-- C4 (amended): `utils.decodeTransaction` resolves with `ts` iff the
request list is non-empty, every key lookup and every matched entry
across all requests succeeds (the collector yields `ts`), and `ts` is
non-empty; and it rejects with `No decoded transactions` iff the request
list is non-empty and everything succeeded but zero entries were
accepted.  In every other case — in particular whenever some matched
entry fails to decrypt, parse, or validate — the call rejects with that
first entry-level failure instead of skipping the entry. -/
theorem utilsDecodeTransaction_spec (env : Env)
    (reqs : List SignatureRequestRec) (u : String) :
    (∀ ts, utilsDecodeTransaction env reqs u = .ok ts ↔
      (reqs ≠ [] ∧ ts ≠ [] ∧ collectRequestsOk env u reqs = some ts)) ∧
    (utilsDecodeTransaction env reqs u = .error .noDecodable ↔
      (reqs ≠ [] ∧ collectRequestsOk env u reqs = some [])) := by
  by_cases hre : reqs = []
  · subst hre
    constructor
    · intro ts
      constructor
      · intro hcon
        exact absurd hcon (by simp [utilsDecodeTransaction])
      · rintro ⟨hcon, -, -⟩
        exact absurd rfl hcon
    · constructor
      · intro hcon
        exact absurd hcon (by simp [utilsDecodeTransaction])
      · rintro ⟨hcon, -⟩
        exact absurd rfl hcon
  · have hlen : ¬ reqs.length ≤ 0 := by
      simpa [List.length_eq_zero] using hre
    rw [utilsDecodeTransaction, if_neg hlen, collectRequestsOk_eq_toOption]
    cases hdr : decodeRequests env u reqs with
    | error e =>
      have hne : e ≠ DecodeError.noDecodable := by
        intro hcon
        subst hcon
        exact decodeRequests_ne_noDecodable env u reqs hdr
      constructor
      · intro ts
        constructor
        · intro hcon
          exact absurd hcon (by simp)
        · rintro ⟨-, -, hcol⟩
          simp [Except.toOption] at hcol
      · constructor
        · intro hcon
          exact absurd (Except.error.inj hcon) hne
        · rintro ⟨-, hcol⟩
          simp [Except.toOption] at hcol
    | ok txs =>
      dsimp only
      by_cases htz : txs.length = 0
      · obtain rfl := List.length_eq_zero.1 htz
        rw [if_pos htz]
        constructor
        · intro ts
          constructor
          · intro hcon
            exact absurd hcon (by simp)
          · rintro ⟨-, hts, hcol⟩
            simp [Except.toOption] at hcol
            exact absurd hcol hts
        · exact iff_of_true rfl ⟨hre, rfl⟩
      · rw [if_neg htz]
        have htne : txs ≠ [] := by
          simpa [List.length_eq_zero] using htz
        constructor
        · intro ts
          constructor
          · intro hok
            obtain rfl := Except.ok.inj hok
            exact ⟨hre, htne, rfl⟩
          · rintro ⟨-, -, hcol⟩
            simp [Except.toOption] at hcol
            rw [hcol]
        · constructor
          · intro hcon
            exact absurd hcon (by simp)
          · rintro ⟨-, hcol⟩
            simp [Except.toOption] at hcol
            exact absurd hcol htne

/-- C4 counterexample: the second matched entry is perfectly decodable
(and validates), yet the first entry's decryption failure rejects the
whole `utils.decodeTransaction` call instead of being skipped. -/
theorem utilsDecodeTransaction_soft_failure_counterexample :
    decodeEntry fixEnv "bob" failReq ⟨12, "STMB", "enc-good", 1⟩ =
      .ok ⟨⟨12, "STMB", "enc-good", 1⟩, 5, txTransferCarol,
        KeyType.active, "bob"⟩ ∧
    utilsDecodeTransaction fixEnv [failReq] "bob" =
      .error .decodingFailed := by
  refine ⟨rfl, rfl⟩

/-!
Claim C5 (status: corrected)

The earlier `decodeTransaction` revision skips a request whose
`initiator` is the decoding user (`dont decode for initiator`), but the
current `utils.decodeTransaction` has no such check: a request the
decoding user initiated is processed like any other and its transactions
are returned (when they decrypt and validate).
-/

/-- C5 counterexample: `utils.decodeTransaction` returns a transaction
that originates from a request the decoding user (`alice`) initiated
herself — no self-decoding skip exists in this revision. -/
theorem utilsDecodeTransaction_self_decode_counterexample :
    selfReq.initiator = "alice" ∧
    utilsDecodeTransaction fixEnv [selfReq] "alice" =
      .ok [⟨⟨21, "STMA", "enc-good", 1⟩, 6, txTransferCarol,
        KeyType.active, "alice"⟩] := by
  refine ⟨rfl, rfl⟩

/-- C5 (amended): only the earlier `decodeTransaction` revision skips
requests initiated by the decoding user: whenever the decoding user's
keys resolve, a request whose initiator is the decoding user contributes
nothing and processing continues with the remaining requests
unchanged. -/
theorem legacyDecodeRequests_skips_initiator (env : Env) (username : String)
    (req : SignatureRequestRec) (rest : List SignatureRequestRec)
    (keys : List String) (hinit : req.initiator = username)
    (hkeys : getPublicKeys env.ledger username req.keyType = some keys) :
    legacyDecodeRequests env username (req :: rest) =
      legacyDecodeRequests env username rest := by
  rw [legacyDecodeRequests, hkeys]
  dsimp only
  rw [hinit]
  rw [if_neg (by simp)]

/-- C5 witness: on the concrete self-initiated request, the legacy
request loop yields the same (empty) result as on no requests at all. -/
theorem legacyDecodeRequests_skips_initiator_witness :
    legacyDecodeRequests fixEnv "alice" [selfReq] = .ok [] :=
  (legacyDecodeRequests_skips_initiator fixEnv "alice" selfReq [] ["STMA"]
    rfl rfl).trans rfl

end HiveMultisig
